import Mathlib

/-
Shallow embedding of the howLongToBeat-Scraper library (src/src/lib.rs).

Modelling conventions:
* Rust strings are modelled as `List Char` (`Str`); the string operations
  used by the code (`trim`, `split_whitespace`, `contains`, `replace`,
  `split('/')`) are translated char-by-char below.
* Rust `f32` values produced by `str::parse::<f32>` are modelled as exact
  rationals (`ℚ`): the code only parses short decimal figures, so rounding,
  exponent forms, `inf` and `NaN` are outside the model.  Inside the
  executable definitions the rational arithmetic is performed by the
  reducible `mkRat`-based helpers `qAdd`/`qMul` (proved equal to `+`/`*` by
  `qAdd_eq`/`qMul_eq`), because the library's `Rat.add`/`Rat.mul` are
  `@[irreducible]` and would block evaluation by `decide`.
* Rust `char::is_whitespace` is modelled by `Char.isWhitespace` (ASCII
  whitespace); the pages handled by the code contain only ASCII spacing.
* Fallible operations return `Option`/`Except`; a Rust `panic!` (an
  `unwrap()` on `None`/`Err`) is modelled as `Option.none` or as the
  `RunResult.panic` constructor, which is distinct from an error value
  (`RunResult.err`) returned to the caller.
* The headless-browser collaborator is out of scope (spec §1); functions
  that drive it take the rendered outcome as an explicit argument: the
  hrefs of the selected search-result anchors for the search page, and the
  title cell plus statistics-table rows for the detail page.  A failure of
  the collaborator (a `?` early return in the Rust code) is an
  `Except.error` input.
-/

namespace HLTB

abbrev Str := List Char

/-- Whitespace test used by `trim` and `split_whitespace`. -/
def isWS (c : Char) : Bool := c.isWhitespace

/-- Value of a decimal digit character. -/
def digitVal (c : Char) : ℕ := c.toNat - 48

/-- Value of a string of decimal digits, most significant first. -/
def digitsVal (s : Str) : ℕ := s.foldl (fun a c => 10 * a + digitVal c) 0

/-- Decimal digit character for `d < 10` (clamped at `'9'`). -/
def digitChar : ℕ → Char
  | 0 => '0'
  | 1 => '1'
  | 2 => '2'
  | 3 => '3'
  | 4 => '4'
  | 5 => '5'
  | 6 => '6'
  | 7 => '7'
  | 8 => '8'
  | _ => '9'

/-- Decimal rendering of a natural number, as produced by Rust's
`format!("{h}")` for an unsigned integer. -/
def natDigits (n : ℕ) : Str :=
  if h : n < 10 then [digitChar n]
  else natDigits (n / 10) ++ [digitChar (n % 10)]
decreasing_by exact Nat.div_lt_self (by omega) (by omega)

/-- Model of Rust `str::trim_start`. -/
def trimLeft (s : Str) : Str := s.dropWhile isWS

/-- Model of Rust `str::trim_end`. -/
def trimEnd (s : Str) : Str := (s.reverse.dropWhile isWS).reverse

/-- Model of Rust `str::trim`. -/
def trim (s : Str) : Str := trimLeft (trimEnd s)

/-- Helper for `splitWS`; `acc` holds the current token reversed. -/
def splitWSGo (acc : Str) : Str → List Str
  | [] => if acc.isEmpty then [] else [acc.reverse]
  | c :: rest =>
    if isWS c then
      if acc.isEmpty then splitWSGo [] rest
      else acc.reverse :: splitWSGo [] rest
    else splitWSGo (c :: acc) rest

/-- Model of Rust `str::split_whitespace` (empty tokens are not produced). -/
def splitWS (s : Str) : List Str := splitWSGo [] s

/-- Model of Rust `str::split('/')` (always at least one piece; empty
pieces are kept). -/
def splitSlash : Str → List Str
  | [] => [[]]
  | c :: rest =>
    if c = '/' then [] :: splitSlash rest
    else
      match splitSlash rest with
      | t :: ts => (c :: t) :: ts
      | [] => [[c]]

/-- Addition on `ℚ` via the reducible smart constructor `mkRat`; equal to
`+` (see `qAdd_eq`).  Used instead of `+` inside the executable model only
because the library's `Rat.add` is `@[irreducible]`, which would block
evaluation of the model by `decide`. -/
def qAdd (a b : ℚ) : ℚ := mkRat (a.num * b.den + b.num * a.den) (a.den * b.den)

/-- Multiplication on `ℚ` via `mkRat`; equal to `*` (see `qMul_eq`). -/
def qMul (a b : ℚ) : ℚ := mkRat (a.num * b.num) (a.den * b.den)

/-- Application of the parsed sign to a parsed magnitude. -/
def qSgn (neg : Bool) (x : ℚ) : ℚ := if neg then -x else x

/-- Sign handling of Rust's float parsing: an optional leading `'+'` or
`'-'`. -/
def stripSign : Str → Bool × Str
  | [] => (false, [])
  | c :: r =>
    if c = '+' then (false, r)
    else if c = '-' then (true, r)
    else (false, c :: r)

/-- Model of Rust `str::parse::<f32>` restricted to the decimal forms the
scraper meets: optional sign, an integer part and an optional fractional
part with at least one digit overall.  The value is exact (no `f32`
rounding); exponent forms, `inf` and `NaN` are outside the model. -/
def parseF32 (s : Str) : Option ℚ :=
  let signed := stripSign s
  let t := signed.2
  let ip := t.takeWhile Char.isDigit
  match t.dropWhile Char.isDigit with
  | [] => if ip.isEmpty then none else some (qSgn signed.1 (digitsVal ip : ℚ))
  | '.' :: fp =>
    if fp.all Char.isDigit && !(ip.isEmpty && fp.isEmpty) then
      some (qSgn signed.1
        (qAdd (digitsVal ip : ℚ) (mkRat (digitsVal fp) (10 ^ fp.length))))
    else none
  | _ => none

/-- Model of Rust `str::parse::<u32>`: optional `'+'`, then decimal digits,
rejecting the empty string and values outside `u32`. -/
def parseU32 (s : Str) : Option ℕ :=
  let t : Str := match s with | '+' :: r => r | r => r
  if t ≠ [] ∧ t.all Char.isDigit ∧ digitsVal t < 2 ^ 32 then some (digitsVal t)
  else none

/-- Pattern `"Hour"`. -/
def hourPat : Str := ['H', 'o', 'u', 'r']

/-- Pattern `"Hours"`. -/
def hoursPat : Str := ['H', 'o', 'u', 'r', 's']

/-- Translation of the Unicode vulgar fractions performed by the three
`replace` calls in `convert_hours_minutes_to_sec_opt` (the patterns are
single characters and the replacements contain no pattern character, so
the three sequential `replace`s amount to this one pass). -/
def replaceFracs : Str → Str
  | [] => []
  | c :: rest =>
    (if c = '½' then ['.', '5']
     else if c = '¼' then ['.', '2', '5']
     else if c = '¾' then ['.', '7', '5']
     else [c]) ++ replaceFracs rest

/-- Accumulation step of `convert_hours_minutes_to_sec_opt` for one
whitespace-delimited token of the compact `"<h>h <m>m"` variant
(lib.rs lines 293-303). -/
def compactStep (total : ℚ) (part : Str) : ℚ :=
  if 'h' ∈ part then
    match parseF32 (part.filter (fun c => c != 'h')) with
    | some hours => qAdd total (qMul hours 3600)
    | none => total
  else if 'm' ∈ part then
    match parseF32 (part.filter (fun c => c != 'm')) with
    | some minutes => qAdd total (qMul minutes 60)
    | none => total
  else total

/-- Running total accumulated by step 3 of the Duration Parser over the
whitespace-delimited tokens of (already trimmed) `text`. -/
def compactTotal (text : Str) : ℚ := (splitWS text).foldl compactStep 0

/-- Model of `convert_hours_minutes_to_sec_opt` (lib.rs lines 269-310). -/
def convert_hours_minutes_to_sec_opt (text0 : Str) : Option ℚ :=
  let text := trim text0
  if text = [] ∨ text = ['-', '-'] ∨ text = ['-'] then none
  else if hoursPat <:+: text ∨ hourPat <:+: text then
    match (splitWS text).head? with
    | some timeStr =>
      match parseF32 (replaceFracs timeStr) with
      | some hours => some (qMul hours 3600)
      | none => none
    | none => none
  else
    let total := compactTotal text
    if 0 < total then some total else none

/-- Statistic categories of the detail-page table (the six slots of a
`Game`). -/
inductive Category
  | main_story
  | main_extra
  | completionist
  | all_styles
  | co_op
  | vs
deriving DecidableEq

/-- Model of the Rust `Styles` struct, durations in exact seconds. -/
structure Styles where
  average : Option ℚ
  median : Option ℚ
  rushed : Option ℚ
  leisure : Option ℚ
deriving DecidableEq

/-- Model of the Rust `Game` struct. -/
structure Game where
  hltb_id : ℕ
  title : Str
  main_story : Option Styles
  main_extra : Option Styles
  completionist : Option Styles
  all_styles : Option Styles
  co_op : Option Styles
  vs : Option Styles
deriving DecidableEq

/-- Slot of a `Game` for a given category. -/
def Game.slot (g : Game) : Category → Option Styles
  | .main_story => g.main_story
  | .main_extra => g.main_extra
  | .completionist => g.completionist
  | .all_styles => g.all_styles
  | .co_op => g.co_op
  | .vs => g.vs

/-- Classification of a row's first-cell label, the `match row_type.as_str()`
of `search_details_page_for_with_sandbox` (lib.rs lines 208-215). -/
def classify (row_type : Str) : Option Category :=
  if row_type = "Main Story".data then some .main_story
  else if row_type = "Main + Extra".data then some .main_extra
  else if row_type = "Main + Extras".data then some .main_extra
  else if row_type = "Completionist".data then some .completionist
  else if row_type = "Completionists".data then some .completionist
  else if row_type = "All PlayStyles".data then some .all_styles
  else if row_type = "Co-Op".data then some .co_op
  else if row_type = "Competitive".data then some .vs
  else none

/-- Label-to-category table exactly as the spec's §4.2 table lists it,
used to check `classify` against the spec (a refinement comparison). -/
def labelTableSpec : List (Str × Category) :=
  [("Main Story".data, .main_story),
   ("Main + Extra".data, .main_extra),
   ("Main + Extras".data, .main_extra),
   ("Completionist".data, .completionist),
   ("Completionists".data, .completionist),
   ("All PlayStyles".data, .all_styles),
   ("Co-Op".data, .co_op),
   ("Competitive".data, .vs)]

/-- Table row, as the list of its `td` cells' `inner_html` texts. -/
abbrev Row := List Str

/-- Model of `parse_row` (lib.rs lines 250-260): skip two cells, then read
four duration cells.  `none` models the `unwrap()` panic on a row with
fewer than six cells. -/
def parse_row (row : Row) : Option Styles :=
  match row with
  | _ :: _ :: c3 :: c4 :: c5 :: c6 :: _ =>
    some ⟨convert_hours_minutes_to_sec_opt c3,
          convert_hours_minutes_to_sec_opt c4,
          convert_hours_minutes_to_sec_opt c5,
          convert_hours_minutes_to_sec_opt c6⟩
  | _ => none

/-- Mutable accumulation state of the row loop in
`search_details_page_for_with_sandbox` (the six `let mut` slots). -/
structure Slots where
  main_story : Option Styles
  main_extra : Option Styles
  completionist : Option Styles
  all_styles : Option Styles
  co_op : Option Styles
  vs : Option Styles
deriving DecidableEq

/-- Initial state of the row loop: all six slots `None`. -/
def Slots.empty : Slots := ⟨none, none, none, none, none, none⟩

/-- Slot of the accumulation state for a category. -/
def Slots.slot (s : Slots) : Category → Option Styles
  | .main_story => s.main_story
  | .main_extra => s.main_extra
  | .completionist => s.completionist
  | .all_styles => s.all_styles
  | .co_op => s.co_op
  | .vs => s.vs

/-- Overwrite of one slot (the assignment `main_story = Some(...)` etc.). -/
def Slots.set (s : Slots) : Category → Option Styles → Slots
  | .main_story, v => { s with main_story := v }
  | .main_extra, v => { s with main_extra := v }
  | .completionist, v => { s with completionist := v }
  | .all_styles, v => { s with all_styles := v }
  | .co_op, v => { s with co_op := v }
  | .vs, v => { s with vs := v }

/-- Body of the row loop (lib.rs lines 205-218) for one row: classify the
first cell's trimmed label and, on a match, parse the row and overwrite the
slot.  `none` models the `parse_row` panic. -/
def stepRow (s : Slots) (row : Row) : Option Slots :=
  match row.head? with
  | none => some s
  | some first_cell =>
    match classify (trim first_cell) with
    | some c =>
      match parse_row row with
      | some st => some (s.set c (some st))
      | none => none
    | none => some s

/-- Whole row loop over the table's body rows. -/
def processRows (s : Slots) (rows : List Row) : Option Slots :=
  rows.foldlM stepRow s

/-- Category a row would be filed under, if any: its first cell's trimmed
label run through `classify`. -/
def rowCategory (row : Row) : Option Category :=
  row.head?.bind fun first_cell => classify (trim first_cell)

/-- Marker `"<!-- -->"` stripped from the title. -/
def marker : Str := "<!-- -->".data

/-- Model of `.replace("<!-- -->", "")` on the title text: left-to-right,
non-overlapping removal of the marker. -/
def stripMarker : Str → Str
  | '<' :: '!' :: '-' :: '-' :: ' ' :: '-' :: '-' :: '>' :: rest => stripMarker rest
  | c :: rest => c :: stripMarker rest
  | [] => []

/-- Outcome of running a piece of Rust code: a returned value, a returned
error (`Err`), or a process abort (`panic`).  `err` and `panic` are
distinct: only `err` is a `Result` value the caller can observe. -/
inductive RunResult (α : Type)
  | ok (a : α)
  | err (e : Str)
  | panic
deriving DecidableEq

/-- Error message of the search phase when no result link is found. -/
def elementNotFound : Str := "Element not found".data

/-- Loop over the selected search-result anchors (lib.rs lines 132-137):
the first element with an `href` has its final `/`-segment parsed as a
`u32` with `.unwrap()` (panic on failure); if no element has an `href`
the phase returns `Err("Element not found")`. -/
def searchLoop : List (Option Str) → RunResult ℕ
  | [] => .err elementNotFound
  | none :: rest => searchLoop rest
  | some link :: _ =>
    match parseU32 ((splitSlash link).getLastD []) with
    | some id => .ok id
    | none => .panic

/-- Model of `search_search_page_for_with_sandbox` (lib.rs lines 111-139).
The browser work is abstracted into `render`: `Except.error` is a failure
of any of the `?`-propagated browser calls, `Except.ok hrefs` the `href`
attributes of the anchors matched by the result-link selector. -/
def search_search_page_for_with_sandbox
    (render : Except Str (List (Option Str))) : RunResult ℕ :=
  match render with
  | .error e => .err e
  | .ok hrefs => searchLoop hrefs

/-- Model of `search_details_page_for_with_sandbox` (lib.rs lines 160-230).
`render` abstracts the browser work: `Except.error` is a `?`-propagated
browser failure; `Except.ok (titleCell, tableRows)` carries the title
element's `inner_html` (`none` if the selector matched nothing) and the
statistics table's body rows (`none` if the table selector matched
nothing).  The two `.unwrap()` calls on absent elements are `panic`. -/
def search_details_page_for_with_sandbox (hltb_id : ℕ)
    (render : Except Str (Option Str × Option (List Row))) : RunResult Game :=
  match render with
  | .error e => .err e
  | .ok (titleCell, tableRows) =>
    match titleCell with
    | none => .panic
    | some cell =>
      let title := stripMarker (trim cell)
      match tableRows with
      | none => .panic
      | some rows =>
        match processRows Slots.empty rows with
        | none => .panic
        | some sl =>
          .ok ⟨hltb_id, title, sl.main_story, sl.main_extra, sl.completionist,
               sl.all_styles, sl.co_op, sl.vs⟩

/-- Model of the public `search_by_name_with_sandbox` (lib.rs lines
342-353): both phases are awaited and then `.unwrap()`ed, so a phase that
returns `Err` (or panics) aborts the whole call with a panic instead of
propagating the error; only a fully successful run returns `Ok(game)`. -/
def search_by_name_with_sandbox
    (searchRender : Except Str (List (Option Str)))
    (detailRender : ℕ → Except Str (Option Str × Option (List Row))) :
    RunResult Game :=
  match search_search_page_for_with_sandbox searchRender with
  | .ok hltb_id =>
    match search_details_page_for_with_sandbox hltb_id (detailRender hltb_id) with
    | .ok g => .ok g
    | .err _ => .panic
    | .panic => .panic
  | .err _ => .panic
  | .panic => .panic

/-- Text `f"{h}h {m}m"` of the spec's §8 property (claim C1). -/
def fmtHM (h m : ℕ) : Str := natDigits h ++ ['h', ' '] ++ natDigits m ++ ['m']

/-- Text `f"{h}h"` of the spec's §8 property (claim C1). -/
def fmtH (h : ℕ) : Str := natDigits h ++ ['h']

/-- Text `f"{m}m"` of the spec's §8 property (claim C1). -/
def fmtM (m : ℕ) : Str := natDigits m ++ ['m']

/-! ## Helper lemmas -/

theorem qAdd_eq (a b : ℚ) : qAdd a b = a + b := (Rat.add_def' a b).symm

theorem qMul_eq (a b : ℚ) : qMul a b = a * b := by
  unfold qMul
  rw [Rat.mul_def, Rat.normalize_eq_mkRat]

theorem digit_ne_of_not_digit {a b : Char} (ha : a.isDigit = true)
    (hb : b.isDigit = false) : a ≠ b := by
  intro e
  rw [e, hb] at ha
  cases ha

theorem isWS_false_of_digit {a : Char} (ha : a.isDigit = true) :
    isWS a = false := by
  unfold isWS
  cases hw : a.isWhitespace
  · rfl
  · exfalso
    have hcases : ((a = ' ' ∨ a = '\t') ∨ a = '\r') ∨ a = '\n' := by
      simpa [Char.isWhitespace] using hw
    rcases hcases with ((h | h) | h) | h <;> rw [h] at ha <;> cases ha

theorem mem_of_substring {l s : Str} {a : Char} (h : l <:+: s) (ha : a ∈ l) :
    a ∈ s := by
  obtain ⟨pre, post, rfl⟩ := h
  simp [ha]

theorem isDigit_digitChar (d : ℕ) : (digitChar d).isDigit = true := by
  rcases d with _ | _ | _ | _ | _ | _ | _ | _ | _ | d <;> rfl

theorem digitVal_digitChar {d : ℕ} (h : d < 10) :
    digitVal (digitChar d) = d := by
  rcases d with _ | _ | _ | _ | _ | _ | _ | _ | _ | d
  · rfl
  · rfl
  · rfl
  · rfl
  · rfl
  · rfl
  · rfl
  · rfl
  · rfl
  · have hd : d = 0 := by omega
    subst hd; rfl

theorem natDigits_ne_nil (n : ℕ) : natDigits n ≠ [] := by
  rw [natDigits]
  split
  · simp
  · simp

theorem natDigits_all_digit (n : ℕ) : ∀ c ∈ natDigits n, c.isDigit = true := by
  induction n using Nat.strong_induction_on with
  | _ n ih =>
    rw [natDigits]
    split
    · intro c hc
      simp only [List.mem_singleton] at hc
      subst hc
      exact isDigit_digitChar n
    · next hn =>
      intro c hc
      rw [List.mem_append] at hc
      rcases hc with hc | hc
      · exact ih (n / 10) (Nat.div_lt_self (by omega) (by omega)) c hc
      · simp only [List.mem_singleton] at hc
        subst hc
        exact isDigit_digitChar (n % 10)

theorem digitsVal_concat (xs : Str) (c : Char) :
    digitsVal (xs ++ [c]) = 10 * digitsVal xs + digitVal c := by
  simp [digitsVal, List.foldl_append]

theorem digitsVal_natDigits (n : ℕ) : digitsVal (natDigits n) = n := by
  induction n using Nat.strong_induction_on with
  | _ n ih =>
    rw [natDigits]
    split
    · next h =>
      show digitsVal [digitChar n] = n
      simp [digitsVal, digitVal_digitChar h]
    · next h =>
      rw [digitsVal_concat, ih (n / 10) (Nat.div_lt_self (by omega) (by omega)),
        digitVal_digitChar (Nat.mod_lt _ (by omega))]
      omega

theorem natDigits_head (n : ℕ) :
    ∃ c t, natDigits n = c :: t ∧ c.isDigit = true := by
  cases hd : natDigits n with
  | nil => exact absurd hd (natDigits_ne_nil n)
  | cons c t =>
    refine ⟨c, t, rfl, ?_⟩
    have := natDigits_all_digit n c
    rw [hd] at this
    exact this (by simp)

theorem dropWhile_eq_self_of_head (p : Char → Bool) (s : Str)
    (h : ∀ c, s.head? = some c → p c = false) : List.dropWhile p s = s := by
  cases s with
  | nil => rfl
  | cons a t =>
    rw [List.dropWhile_cons, if_neg]
    simp [h a rfl]

theorem trim_of_ends (s : Str) (h1 : ∀ c, s.head? = some c → isWS c = false)
    (h2 : ∀ c, s.getLast? = some c → isWS c = false) : trim s = s := by
  have hEnd : trimEnd s = s := by
    unfold trimEnd
    rw [dropWhile_eq_self_of_head _ _ (by
      intro c hc
      rw [List.head?_reverse] at hc
      exact h2 c hc)]
    exact List.reverse_reverse s
  unfold trim trimLeft
  rw [hEnd]
  exact dropWhile_eq_self_of_head _ _ h1

/-! ## Claim theorems (easy evaluations first) -/

/-- C10: the zero-means-missing conflation is specific to the compact
`"<h>h <m>m"` variant.  `"0 Hours"` parses to `Some 0`, while `"0h"` and
`"0h 0m"` parse to `None`. -/
theorem C10_zero_conflation_compact_only :
    convert_hours_minutes_to_sec_opt "0 Hours".data = some 0 ∧
    convert_hours_minutes_to_sec_opt "0h".data = none ∧
    convert_hours_minutes_to_sec_opt "0h 0m".data = none := by
  refine ⟨?_, ?_, ?_⟩ <;> decide

/-- C9: the Duration Parser is total — every input yields an `Option`
value (the model has no panic outcome because the Rust code has no
`unwrap` in this function), including strings with no digits, lone suffix
characters, tokens failing float parsing, and text mixing the two
encodings. -/
theorem C9_parser_total :
    (∀ s : Str, convert_hours_minutes_to_sec_opt s = none ∨
      ∃ q : ℚ, convert_hours_minutes_to_sec_opt s = some q) ∧
    convert_hours_minutes_to_sec_opt "h".data = none ∧
    convert_hours_minutes_to_sec_opt "m".data = none ∧
    convert_hours_minutes_to_sec_opt "no digits".data = none ∧
    convert_hours_minutes_to_sec_opt "3h Hours".data = none := by
  refine ⟨fun s => ?_, by decide, by decide, by decide, by decide⟩
  cases h : convert_hours_minutes_to_sec_opt s with
  | none => exact Or.inl rfl
  | some q => exact Or.inr ⟨q, rfl⟩

/-- C2 (code bug): the lookup orchestrator `.unwrap()`s both phase
results, so a failed phase aborts with a panic instead of propagating a
failed `Result` to the caller.  Concretely: a search page with no result
link makes the search phase return `Err("Element not found")`, and the
orchestrator then panics; a render failure likewise panics; and a result
link whose final segment is not a `u32` panics already inside the search
phase. -/
theorem C2_lookup_panics_instead_of_err :
    search_search_page_for_with_sandbox (.ok []) = .err elementNotFound ∧
    search_by_name_with_sandbox (.ok [])
      (fun _ => .ok (some ['T'], some [])) = .panic ∧
    search_by_name_with_sandbox (.error "navigation failed".data)
      (fun _ => .ok (some ['T'], some [])) = .panic ∧
    search_search_page_for_with_sandbox (.ok [some "game/abc".data]) = .panic := by
  refine ⟨?_, ?_, ?_, ?_⟩ <;> decide

theorem parse_row_eq_none_of_short (row : Row) (h : row.length < 6) :
    parse_row row = none := by
  rcases row with _ | ⟨a, _ | ⟨b, _ | ⟨c, _ | ⟨d, _ | ⟨e, _ | ⟨f, rest⟩⟩⟩⟩⟩⟩
  · rfl
  · rfl
  · rfl
  · rfl
  · rfl
  · rfl
  · simp only [List.length_cons] at h
    omega

/-- C4 (counterexample): a row whose label is recognized but which has
fewer than six cells does not produce a `MalformedResponse` error value
reported to the caller — the whole detail extraction aborts with a panic
(`RunResult.panic` is a different constructor from `RunResult.err`). -/
theorem C4_short_row_panic_counterexample :
    search_details_page_for_with_sandbox 1
      (.ok (some ['T'], some [["Main Story".data]])) = .panic := by
  decide

/-- C4 (amended): for every row whose first-cell trimmed label matches a
recognized category but which has fewer than six cells, row processing
aborts (the `unwrap()` panic in `parse_row`); the row is not silently
skipped, but no error value is reported to the caller either. -/
theorem C4_short_row_aborts (s : Slots) (row : Row) (first_cell : Str)
    (c : Category) (hhead : row.head? = some first_cell)
    (hc : classify (trim first_cell) = some c) (hlen : row.length < 6) :
    stepRow s row = none ∧ stepRow s row ≠ some s := by
  have hstep : stepRow s row = none := by
    simp only [stepRow, hhead, hc, parse_row_eq_none_of_short row hlen]
  exact ⟨hstep, by rw [hstep]; simp⟩

theorem C4_short_row_aborts_witness :
    stepRow Slots.empty [" Main Story ".data] = none ∧
    stepRow Slots.empty [" Main Story ".data] ≠ some Slots.empty :=
  C4_short_row_aborts Slots.empty [" Main Story ".data] (" Main Story ".data)
    .main_story rfl (by decide) (by decide)

/-- C8 (counterexample): the Detail Extractor happily returns a
`GameRecord` whose title is the empty string — the title element's text is
carried over verbatim with no non-emptiness check, so the invariant
"every returned record has a non-empty title" fails at a page whose title
element renders empty. -/
theorem C8_empty_title_counterexample :
    search_details_page_for_with_sandbox 7 (.ok (some [], some [])) =
      .ok ⟨7, [], none, none, none, none, none, none⟩ := by
  decide

/-- C8 (amended): every `Game` the Detail Extractor returns carries the
requested identifier and the trimmed, marker-stripped text of the title
element — which may be empty — and is only produced when the title element
and the statistics table were both present and every recognized row
parsed; zero populated statistic slots is a legal outcome (an empty row
list yields a record with all six slots `None`). -/
theorem C8_returned_record_shape :
    (∀ (hltb_id : ℕ) (render : Except Str (Option Str × Option (List Row)))
      (g : Game),
      search_details_page_for_with_sandbox hltb_id render = .ok g →
      g.hltb_id = hltb_id ∧
      ∃ cell rows sl, render = .ok (some cell, some rows) ∧
        g.title = stripMarker (trim cell) ∧
        processRows Slots.empty rows = some sl) ∧
    (∀ (hltb_id : ℕ) (cell : Str),
      search_details_page_for_with_sandbox hltb_id (.ok (some cell, some [])) =
        .ok ⟨hltb_id, stripMarker (trim cell), none, none, none, none, none,
          none⟩) := by
  constructor
  · intro hltb_id render g h
    rcases render with e | ⟨tc, tr⟩
    · exact absurd h (by simp [search_details_page_for_with_sandbox])
    rcases tc with _ | cell
    · exact absurd h (by simp [search_details_page_for_with_sandbox])
    rcases tr with _ | rows
    · exact absurd h (by simp [search_details_page_for_with_sandbox])
    unfold search_details_page_for_with_sandbox at h
    dsimp only at h
    cases hp : processRows Slots.empty rows with
    | none => rw [hp] at h; exact absurd h (by simp)
    | some sl =>
      rw [hp] at h
      simp only [RunResult.ok.injEq] at h
      subst h
      exact ⟨rfl, cell, rows, sl, rfl, rfl, hp⟩
  · intro hltb_id cell
    rfl

theorem C8_returned_record_shape_witness :
    (⟨5, "Metal Gear".data, none, none, none, none, none, none⟩ :
        Game).hltb_id = 5 ∧
    ∃ cell rows sl,
      (Except.ok (some "Metal Gear".data, some []) :
          Except Str (Option Str × Option (List Row))) =
        .ok (some cell, some rows) ∧
      ("Metal Gear".data : Str) = stripMarker (trim cell) ∧
      processRows Slots.empty rows = some sl :=
  C8_returned_record_shape.1 5 (.ok (some "Metal Gear".data, some []))
    ⟨5, "Metal Gear".data, none, none, none, none, none, none⟩ (by decide)

/-- C3 (counterexample): the compact variant does not return `Some(total)`
for every nonzero accumulated total — a negative token such as `"-5h"`
accumulates the nonzero total `-18000`, yet the parser returns `None`,
because the code tests `total > 0.0`, not `total != 0.0`. -/
theorem C3_negative_total_counterexample :
    compactTotal (trim "-5h".data) = -18000 ∧
    (-18000 : ℚ) ≠ 0 ∧
    convert_hours_minutes_to_sec_opt "-5h".data = none := by
  refine ⟨?_, by norm_num, ?_⟩ <;> decide

/-- C3 (amended): for every input handled by the compact `"<h>h <m>m"`
variant (step 3), the result is `Some(total)` when the accumulated running
total is strictly positive and `None` otherwise — in particular `None`
both when the total is exactly zero and when it is negative. -/
theorem C3_compact_zero_total (s : Str) (h1 : trim s ≠ [])
    (h2 : trim s ≠ ['-', '-']) (h3 : trim s ≠ ['-'])
    (h4 : ¬ hoursPat <:+: trim s) (h5 : ¬ hourPat <:+: trim s) :
    convert_hours_minutes_to_sec_opt s =
      if 0 < compactTotal (trim s) then some (compactTotal (trim s))
      else none := by
  unfold convert_hours_minutes_to_sec_opt
  rw [if_neg (by tauto), if_neg (by tauto)]

theorem C3_compact_zero_total_witness :
    convert_hours_minutes_to_sec_opt "4h".data =
      if 0 < compactTotal (trim "4h".data) then
        some (compactTotal (trim "4h".data))
      else none :=
  C3_compact_zero_total "4h".data (by decide) (by decide) (by decide)
    (by decide) (by decide)

theorem lookup_cons_eq {α β : Type} [BEq α] [LawfulBEq α] [DecidableEq α]
    (a k : α) (b : β) (es : List (α × β)) :
    ((k, b) :: es).lookup a = if a = k then some b else es.lookup a := by
  rw [List.lookup_cons]
  by_cases h : a = k
  · subst h; simp
  · have hb : (a == k) = false := beq_eq_false_iff_ne.mpr h
    simp [hb, h]

/-- C6: row classification is the fixed case-sensitive mapping of the
spec's §4.2 table (with the `"Main + Extra(s)"` and `"Completionist(s)"`
synonyms); any label outside the table classifies as `None`, and such a
row is skipped by the row loop without changing the state and without any
error. -/
theorem C6_classification :
    (∀ l : Str, classify l = labelTableSpec.lookup l) ∧
    classify "main story".data = none ∧
    (∀ (s : Slots) (row : Row) (first_cell : Str),
      row.head? = some first_cell → classify (trim first_cell) = none →
      stepRow s row = some s) := by
  refine ⟨fun l => ?_, by decide, fun s row fc hh hc => ?_⟩
  · by_cases h1 : l = "Main Story".data
    · subst h1; decide
    by_cases h2 : l = "Main + Extra".data
    · subst h2; decide
    by_cases h3 : l = "Main + Extras".data
    · subst h3; decide
    by_cases h4 : l = "Completionist".data
    · subst h4; decide
    by_cases h5 : l = "Completionists".data
    · subst h5; decide
    by_cases h6 : l = "All PlayStyles".data
    · subst h6; decide
    by_cases h7 : l = "Co-Op".data
    · subst h7; decide
    by_cases h8 : l = "Competitive".data
    · subst h8; decide
    simp [classify, labelTableSpec, lookup_cons_eq, h1, h2, h3, h4, h5, h6,
      h7, h8]
  · simp only [stepRow, hh, hc]

theorem C6_classification_witness :
    stepRow Slots.empty ["Header".data] = some Slots.empty :=
  C6_classification.2.2 Slots.empty ["Header".data] ("Header".data) rfl
    (by decide)

theorem processRows_nil (s : Slots) : processRows s [] = some s := rfl

theorem processRows_cons (s : Slots) (r : Row) (l : List Row) :
    processRows s (r :: l) =
      (stepRow s r).bind fun s1 => processRows s1 l := rfl

theorem processRows_append (s : Slots) (l1 l2 : List Row) :
    processRows s (l1 ++ l2) =
      (processRows s l1).bind fun s1 => processRows s1 l2 := by
  simp [processRows, List.foldlM_append]

theorem Slots.slot_set_self (s : Slots) (c : Category) (v : Option Styles) :
    (s.set c v).slot c = v := by
  cases c <;> rfl

theorem Slots.slot_set_ne (s : Slots) {c c' : Category} (h : c' ≠ c)
    (v : Option Styles) : (s.set c' v).slot c = s.slot c := by
  cases c <;> cases c' <;> first | rfl | exact absurd rfl h

theorem game_slot_mk (hltb_id : ℕ) (t : Str) (sl : Slots) (c : Category) :
    (Game.mk hltb_id t sl.main_story sl.main_extra sl.completionist
      sl.all_styles sl.co_op sl.vs).slot c = sl.slot c := by
  cases c <;> rfl

theorem stepRow_category (s : Slots) (row : Row) (c : Category)
    (h : rowCategory row = some c) :
    stepRow s row = (parse_row row).map fun st => s.set c (some st) := by
  unfold rowCategory at h
  cases hh : row.head? with
  | none => rw [hh] at h; simp at h
  | some fc =>
    rw [hh] at h
    simp only [Option.some_bind] at h
    simp only [stepRow, hh, h]
    cases hp : parse_row row <;> simp [hp]

theorem slot_untouched (c : Category) (l : List Row) :
    ∀ s s' : Slots, (∀ r ∈ l, rowCategory r ≠ some c) →
      processRows s l = some s' → s'.slot c = s.slot c := by
  induction l with
  | nil =>
    intro s s' _ h
    rw [processRows_nil] at h
    injection h with e
    rw [e]
  | cons r t ih =>
    intro s s' hall h
    rw [processRows_cons] at h
    cases hs : stepRow s r with
    | none => rw [hs] at h; simp at h
    | some s1 =>
      rw [hs] at h
      simp only [Option.some_bind] at h
      have hs1 : s1.slot c = s.slot c := by
        have hcat : rowCategory r ≠ some c := hall r (List.mem_cons_self r t)
        unfold stepRow at hs
        cases hh : r.head? with
        | none =>
          rw [hh] at hs
          injection hs with e
          rw [← e]
        | some fc =>
          rw [hh] at hs
          dsimp only at hs
          cases hcl : classify (trim fc) with
          | none =>
            rw [hcl] at hs
            injection hs with e
            rw [← e]
          | some c2 =>
            rw [hcl] at hs
            have hne : c2 ≠ c := by
              intro e
              exact hcat (by unfold rowCategory; rw [hh]; simp [hcl, e])
            cases hp : parse_row r with
            | none => rw [hp] at hs; cases hs
            | some st =>
              rw [hp] at hs
              injection hs with e
              rw [← e, Slots.slot_set_ne s hne]
      rw [ih s1 s' (fun r2 h2 => hall r2 (List.mem_cons_of_mem _ h2)) h, hs1]

/-- C7: when a detail page's table contains two rows whose labels map to
the same category (here `r1` earlier and `r2` later, with no further row
of that category after `r2`), the returned `Game`'s slot for that
category holds the statistics parsed from the later row — last-write-wins
— and the duplicate does not make the extraction fail. -/
theorem C7_last_write_wins (hltb_id : ℕ) (cell : Str)
    (pre mid post : List Row) (r1 r2 : Row) (c : Category) (g : Game)
    (hr1 : rowCategory r1 = some c) (hr2 : rowCategory r2 = some c)
    (hpost : ∀ r ∈ post, rowCategory r ≠ some c)
    (h : search_details_page_for_with_sandbox hltb_id
      (.ok (some cell, some (pre ++ r1 :: mid ++ r2 :: post))) = .ok g) :
    ∃ st, parse_row r2 = some st ∧ g.slot c = some st := by
  unfold search_details_page_for_with_sandbox at h
  dsimp only at h
  cases hp : processRows Slots.empty (pre ++ r1 :: mid ++ r2 :: post) with
  | none => rw [hp] at h; exact absurd h (by simp)
  | some sl =>
    rw [hp] at h
    simp only [RunResult.ok.injEq] at h
    subst h
    rw [processRows_append] at hp
    rw [Option.bind_eq_some] at hp
    obtain ⟨sA, hA, hp⟩ := hp
    rw [processRows_cons, Option.bind_eq_some] at hp
    obtain ⟨sB, hB, hp⟩ := hp
    rw [stepRow_category sA r2 c hr2] at hB
    rw [Option.map_eq_some'] at hB
    obtain ⟨st, hst, hsB⟩ := hB
    refine ⟨st, hst, ?_⟩
    rw [game_slot_mk, slot_untouched c post sB sl hpost hp, ← hsB,
      Slots.slot_set_self]

theorem stripSign_digits (ds : Str) (hd : ∀ c ∈ ds, c.isDigit = true) :
    stripSign ds = (false, ds) := by
  cases ds with
  | nil => rfl
  | cons c t =>
    have hc := hd c (by simp)
    unfold stripSign
    dsimp only
    rw [if_neg (digit_ne_of_not_digit hc (by decide)),
      if_neg (digit_ne_of_not_digit hc (by decide))]

theorem parseF32_digits (ds : Str) (hne : ds ≠ [])
    (hd : ∀ c ∈ ds, c.isDigit = true) :
    parseF32 ds = some ((digitsVal ds : ℚ)) := by
  have hempty : ds.isEmpty = false := by
    cases ds with
    | nil => exact absurd rfl hne
    | cons c t => rfl
  simp only [parseF32, stripSign_digits ds hd]
  rw [List.takeWhile_eq_self_iff.mpr hd, List.dropWhile_eq_nil_iff.mpr hd,
    hempty]
  simp [qSgn]

theorem filter_strip_suffix (l : Str) (x : Char) (hl : ∀ c ∈ l, c ≠ x) :
    (l ++ [x]).filter (fun c => c != x) = l := by
  rw [List.filter_append]
  have h1 : l.filter (fun c => c != x) = l :=
    List.filter_eq_self.mpr fun a ha => bne_iff_ne.mpr (hl a ha)
  have h2 : ([x] : Str).filter (fun c => c != x) = [] := by simp
  rw [h1, h2, List.append_nil]

theorem compactStep_hours (total : ℚ) (ds : Str) (hne : ds ≠ [])
    (hd : ∀ c ∈ ds, c.isDigit = true) :
    compactStep total (ds ++ ['h']) =
      qAdd total (qMul ((digitsVal ds : ℚ)) 3600) := by
  unfold compactStep
  rw [if_pos (by simp : 'h' ∈ ds ++ ['h'])]
  rw [filter_strip_suffix ds 'h'
    (fun c hc => digit_ne_of_not_digit (hd c hc) (by decide))]
  rw [parseF32_digits ds hne hd]

theorem compactStep_minutes (total : ℚ) (ds : Str) (hne : ds ≠ [])
    (hd : ∀ c ∈ ds, c.isDigit = true) :
    compactStep total (ds ++ ['m']) =
      qAdd total (qMul ((digitsVal ds : ℚ)) 60) := by
  have hnoh : ¬ 'h' ∈ ds ++ ['m'] := by
    intro hmem
    rcases List.mem_append.mp hmem with hx | hx
    · exact absurd (hd 'h' hx) (by decide)
    · exact absurd hx (by decide)
  unfold compactStep
  rw [if_neg hnoh, if_pos (by simp : 'm' ∈ ds ++ ['m'])]
  rw [filter_strip_suffix ds 'm'
    (fun c hc => digit_ne_of_not_digit (hd c hc) (by decide))]
  rw [parseF32_digits ds hne hd]

theorem splitWSGo_nil_eq (acc : Str) :
    splitWSGo acc [] = if acc.isEmpty then [] else [acc.reverse] := rfl

theorem splitWSGo_cons_eq (acc : Str) (c : Char) (rest : Str) :
    splitWSGo acc (c :: rest) =
      if isWS c then
        if acc.isEmpty then splitWSGo [] rest
        else acc.reverse :: splitWSGo [] rest
      else splitWSGo (c :: acc) rest := rfl

theorem splitWSGo_token (a : Str) (ha : ∀ c ∈ a, isWS c = false) :
    ∀ acc t : Str, splitWSGo acc (a ++ t) = splitWSGo (a.reverse ++ acc) t := by
  induction a with
  | nil => intro acc t; simp
  | cons c a' ih =>
    intro acc t
    have hc : isWS c = false := ha c (by simp)
    rw [List.cons_append, splitWSGo_cons_eq, if_neg (by simp [hc])]
    rw [ih (fun d hd => ha d (by simp [hd])) (c :: acc) t]
    congr 1
    simp [List.append_assoc]

theorem reverse_isEmpty_false (a : Str) (hne : a ≠ []) :
    a.reverse.isEmpty = false := by
  cases hr : a.reverse with
  | nil => exact absurd (List.reverse_eq_nil_iff.mp hr) hne
  | cons x xs => rfl

theorem splitWS_single (a : Str) (hne : a ≠ [])
    (ha : ∀ c ∈ a, isWS c = false) : splitWS a = [a] := by
  unfold splitWS
  have h := splitWSGo_token a ha [] []
  rw [List.append_nil] at h
  rw [h, List.append_nil, splitWSGo_nil_eq, reverse_isEmpty_false a hne]
  simp

theorem splitWS_two (a b : Str) (hna : a ≠ []) (hnb : b ≠ [])
    (ha : ∀ c ∈ a, isWS c = false) (hb : ∀ c ∈ b, isWS c = false) :
    splitWS (a ++ ' ' :: b) = [a, b] := by
  unfold splitWS
  rw [splitWSGo_token a ha [] (' ' :: b), List.append_nil, splitWSGo_cons_eq,
    if_pos (by decide : isWS ' ' = true), reverse_isEmpty_false a hna]
  have hsb : splitWSGo [] b = [b] := splitWS_single b hnb hb
  simp [hsb]

theorem fmtHM_eq (h m : ℕ) :
    fmtHM h m = (natDigits h ++ ['h']) ++ ' ' :: (natDigits m ++ ['m']) := by
  simp [fmtHM, List.append_assoc]

theorem fmtHM_head? (h m : ℕ) :
    ∃ c, (fmtHM h m).head? = some c ∧ c.isDigit = true := by
  obtain ⟨c0, t0, he, hd0⟩ := natDigits_head h
  refine ⟨c0, ?_, hd0⟩
  unfold fmtHM
  rw [he]
  simp

theorem fmtHM_last? (h m : ℕ) : (fmtHM h m).getLast? = some 'm' := by
  unfold fmtHM
  exact List.getLast?_concat _

theorem trim_fmtHM (h m : ℕ) : trim (fmtHM h m) = fmtHM h m := by
  obtain ⟨c0, hc0, hd0⟩ := fmtHM_head? h m
  apply trim_of_ends
  · intro c hc
    rw [hc0] at hc
    injection hc with e
    rw [← e]
    exact isWS_false_of_digit hd0
  · intro c hc
    rw [fmtHM_last?] at hc
    injection hc with e
    rw [← e]
    rfl

theorem not_H_mem_fmtHM (h m : ℕ) : ¬ 'H' ∈ fmtHM h m := by
  intro hmem
  unfold fmtHM at hmem
  simp only [List.mem_append, List.mem_cons, List.mem_singleton,
    List.not_mem_nil, or_false] at hmem
  rcases hmem with ((hx | (hx | hx)) | hx) | hx
  · exact absurd (natDigits_all_digit h 'H' hx) (by decide)
  · exact absurd hx (by decide)
  · exact absurd hx (by decide)
  · exact absurd (natDigits_all_digit m 'H' hx) (by decide)
  · exact absurd hx (by decide)

theorem fmtHM_not_dash (h m : ℕ) :
    ¬(fmtHM h m = [] ∨ fmtHM h m = ['-', '-'] ∨ fmtHM h m = ['-']) := by
  obtain ⟨c0, hc0, hd0⟩ := fmtHM_head? h m
  rintro (hx | hx | hx) <;> rw [hx] at hc0
  · cases hc0
  · rw [List.head?_cons] at hc0
    injection hc0 with e
    exact absurd hd0 (by rw [← e]; decide)
  · rw [List.head?_cons] at hc0
    injection hc0 with e
    exact absurd hd0 (by rw [← e]; decide)

theorem tokenH_no_ws (h : ℕ) : ∀ c ∈ natDigits h ++ ['h'], isWS c = false := by
  intro c hc
  rcases List.mem_append.mp hc with hx | hx
  · exact isWS_false_of_digit (natDigits_all_digit h c hx)
  · simp only [List.mem_singleton] at hx
    rw [hx]
    rfl

theorem tokenM_no_ws (m : ℕ) : ∀ c ∈ natDigits m ++ ['m'], isWS c = false := by
  intro c hc
  rcases List.mem_append.mp hc with hx | hx
  · exact isWS_false_of_digit (natDigits_all_digit m c hx)
  · simp only [List.mem_singleton] at hx
    rw [hx]
    rfl

theorem convert_fmtHM (h m : ℕ) :
    convert_hours_minutes_to_sec_opt (fmtHM h m) =
      if 0 < (h : ℚ) * 3600 + (m : ℚ) * 60 then
        some ((h : ℚ) * 3600 + (m : ℚ) * 60)
      else none := by
  have hsplit : splitWS (fmtHM h m) =
      [natDigits h ++ ['h'], natDigits m ++ ['m']] := by
    rw [fmtHM_eq]
    exact splitWS_two _ _ (by simp) (by simp) (tokenH_no_ws h) (tokenM_no_ws m)
  have htot : compactTotal (fmtHM h m) = (h : ℚ) * 3600 + (m : ℚ) * 60 := by
    unfold compactTotal
    rw [hsplit, List.foldl_cons, List.foldl_cons, List.foldl_nil]
    rw [compactStep_hours 0 (natDigits h) (natDigits_ne_nil h)
      (natDigits_all_digit h)]
    rw [compactStep_minutes _ (natDigits m) (natDigits_ne_nil m)
      (natDigits_all_digit m)]
    rw [digitsVal_natDigits, digitsVal_natDigits, qMul_eq, qMul_eq, qAdd_eq,
      qAdd_eq]
    ring
  simp only [convert_hours_minutes_to_sec_opt]
  rw [trim_fmtHM]
  rw [if_neg (fmtHM_not_dash h m), if_neg ?hhour]
  case hhour =>
    rintro (hx | hx) <;>
      exact not_H_mem_fmtHM h m (mem_of_substring hx (by decide))
  rw [htot]

theorem fmtH_head? (h : ℕ) :
    ∃ c, (fmtH h).head? = some c ∧ c.isDigit = true := by
  obtain ⟨c0, t0, he, hd0⟩ := natDigits_head h
  refine ⟨c0, ?_, hd0⟩
  unfold fmtH
  rw [he]
  simp

theorem fmtH_not_dash (h : ℕ) :
    ¬(fmtH h = [] ∨ fmtH h = ['-', '-'] ∨ fmtH h = ['-']) := by
  obtain ⟨c0, hc0, hd0⟩ := fmtH_head? h
  rintro (hx | hx | hx) <;> rw [hx] at hc0
  · cases hc0
  · rw [List.head?_cons] at hc0
    injection hc0 with e
    exact absurd hd0 (by rw [← e]; decide)
  · rw [List.head?_cons] at hc0
    injection hc0 with e
    exact absurd hd0 (by rw [← e]; decide)

theorem trim_fmtH (h : ℕ) : trim (fmtH h) = fmtH h := by
  obtain ⟨c0, hc0, hd0⟩ := fmtH_head? h
  apply trim_of_ends
  · intro c hc
    rw [hc0] at hc
    injection hc with e
    rw [← e]
    exact isWS_false_of_digit hd0
  · intro c hc
    rw [show (fmtH h).getLast? = some 'h' from List.getLast?_concat _] at hc
    injection hc with e
    rw [← e]
    rfl

theorem not_H_mem_fmtH (h : ℕ) : ¬ 'H' ∈ fmtH h := by
  intro hmem
  unfold fmtH at hmem
  rcases List.mem_append.mp hmem with hx | hx
  · exact absurd (natDigits_all_digit h 'H' hx) (by decide)
  · exact absurd hx (by decide)

theorem convert_fmtH (h : ℕ) :
    convert_hours_minutes_to_sec_opt (fmtH h) =
      if 0 < (h : ℚ) * 3600 then some ((h : ℚ) * 3600) else none := by
  have htot : compactTotal (fmtH h) = (h : ℚ) * 3600 := by
    unfold compactTotal
    rw [show splitWS (fmtH h) = [natDigits h ++ ['h']] from
      splitWS_single _ (by simp [fmtH]) (tokenH_no_ws h)]
    rw [List.foldl_cons, List.foldl_nil]
    rw [compactStep_hours 0 (natDigits h) (natDigits_ne_nil h)
      (natDigits_all_digit h)]
    rw [digitsVal_natDigits, qMul_eq, qAdd_eq]
    ring
  simp only [convert_hours_minutes_to_sec_opt]
  rw [trim_fmtH]
  rw [if_neg (fmtH_not_dash h), if_neg ?hhour]
  case hhour =>
    rintro (hx | hx) <;>
      exact not_H_mem_fmtH h (mem_of_substring hx (by decide))
  rw [htot]

theorem fmtM_head? (m : ℕ) :
    ∃ c, (fmtM m).head? = some c ∧ c.isDigit = true := by
  obtain ⟨c0, t0, he, hd0⟩ := natDigits_head m
  refine ⟨c0, ?_, hd0⟩
  unfold fmtM
  rw [he]
  simp

theorem fmtM_not_dash (m : ℕ) :
    ¬(fmtM m = [] ∨ fmtM m = ['-', '-'] ∨ fmtM m = ['-']) := by
  obtain ⟨c0, hc0, hd0⟩ := fmtM_head? m
  rintro (hx | hx | hx) <;> rw [hx] at hc0
  · cases hc0
  · rw [List.head?_cons] at hc0
    injection hc0 with e
    exact absurd hd0 (by rw [← e]; decide)
  · rw [List.head?_cons] at hc0
    injection hc0 with e
    exact absurd hd0 (by rw [← e]; decide)

theorem trim_fmtM (m : ℕ) : trim (fmtM m) = fmtM m := by
  obtain ⟨c0, hc0, hd0⟩ := fmtM_head? m
  apply trim_of_ends
  · intro c hc
    rw [hc0] at hc
    injection hc with e
    rw [← e]
    exact isWS_false_of_digit hd0
  · intro c hc
    rw [show (fmtM m).getLast? = some 'm' from List.getLast?_concat _] at hc
    injection hc with e
    rw [← e]
    rfl

theorem not_H_mem_fmtM (m : ℕ) : ¬ 'H' ∈ fmtM m := by
  intro hmem
  unfold fmtM at hmem
  rcases List.mem_append.mp hmem with hx | hx
  · exact absurd (natDigits_all_digit m 'H' hx) (by decide)
  · exact absurd hx (by decide)

theorem convert_fmtM (m : ℕ) :
    convert_hours_minutes_to_sec_opt (fmtM m) =
      if 0 < (m : ℚ) * 60 then some ((m : ℚ) * 60) else none := by
  have htot : compactTotal (fmtM m) = (m : ℚ) * 60 := by
    unfold compactTotal
    rw [show splitWS (fmtM m) = [natDigits m ++ ['m']] from
      splitWS_single _ (by simp [fmtM]) (tokenM_no_ws m)]
    rw [List.foldl_cons, List.foldl_nil]
    rw [compactStep_minutes 0 (natDigits m) (natDigits_ne_nil m)
      (natDigits_all_digit m)]
    rw [digitsVal_natDigits, qMul_eq, qAdd_eq]
    ring
  simp only [convert_hours_minutes_to_sec_opt]
  rw [trim_fmtM]
  rw [if_neg (fmtM_not_dash m), if_neg ?hhour]
  case hhour =>
    rintro (hx | hx) <;>
      exact not_H_mem_fmtM m (mem_of_substring hx (by decide))
  rw [htot]

/-- C1 (counterexample): at `h = m = 0` the claimed identity
`parse(f"{h}h {m}m") = Some(h*3600 + m*60)` fails — the parser returns
`None` for `"0h 0m"`, not `Some 0`, because a zero accumulated total is
conflated with "no duration data". -/
theorem C1_zero_counterexample :
    convert_hours_minutes_to_sec_opt (fmtHM 0 0) ≠
      some ((0 : ℚ) * 3600 + (0 : ℚ) * 60) := by
  have hf : fmtHM 0 0 = "0h 0m".data := by
    rw [fmtHM, natDigits]
    decide
  have hz : (0 : ℚ) * 3600 + (0 : ℚ) * 60 = 0 := by norm_num
  rw [hf, hz]
  decide

/-- C1 (amended): for all non-negative integers `h`, `m`, the Duration
Parser maps `f"{h}h {m}m"` to `Some(h*3600 + m*60)`, `f"{h}h"` to
`Some(h*3600)` and `f"{m}m"` to `Some(m*60)` whenever the resulting total
is nonzero (i.e. the integers are not all zero in the given text); when
the total is zero (`"0h 0m"`, `"0h"`, `"0m"`) the parser returns `None`
instead. -/
theorem C1_compact_format (h m : ℕ) :
    (0 < h + m →
      convert_hours_minutes_to_sec_opt (fmtHM h m) =
        some ((h : ℚ) * 3600 + (m : ℚ) * 60)) ∧
    (0 < h →
      convert_hours_minutes_to_sec_opt (fmtH h) = some ((h : ℚ) * 3600)) ∧
    (0 < m →
      convert_hours_minutes_to_sec_opt (fmtM m) = some ((m : ℚ) * 60)) ∧
    convert_hours_minutes_to_sec_opt (fmtHM 0 0) = none ∧
    convert_hours_minutes_to_sec_opt (fmtH 0) = none ∧
    convert_hours_minutes_to_sec_opt (fmtM 0) = none := by
  refine ⟨fun hp => ?_, fun hp => ?_, fun hp => ?_, ?_, ?_, ?_⟩
  · rw [convert_fmtHM, if_pos ?_]
    have hcast : ((h * 3600 + m * 60 : ℕ) : ℚ) =
        (h : ℚ) * 3600 + (m : ℚ) * 60 := by
      push_cast
      ring
    rw [← hcast]
    exact Nat.cast_pos.mpr (by omega)
  · rw [convert_fmtH, if_pos ?_]
    have hcast : ((h * 3600 : ℕ) : ℚ) = (h : ℚ) * 3600 := by
      push_cast
      ring
    rw [← hcast]
    exact Nat.cast_pos.mpr (by omega)
  · rw [convert_fmtM, if_pos ?_]
    have hcast : ((m * 60 : ℕ) : ℚ) = (m : ℚ) * 60 := by
      push_cast
      ring
    rw [← hcast]
    exact Nat.cast_pos.mpr (by omega)
  · rw [convert_fmtHM]
    norm_num
  · rw [convert_fmtH]
    norm_num
  · rw [convert_fmtM]
    norm_num

theorem C1_compact_format_witness :
    convert_hours_minutes_to_sec_opt (fmtHM 1 2) =
      some ((1 : ℚ) * 3600 + (2 : ℚ) * 60) :=
  (C1_compact_format 1 2).1 (by norm_num)

theorem infix_dropWhile_of_all (p : Char → Bool) (pat : Str) (hne : pat ≠ [])
    (hp : ∀ c ∈ pat, p c = false) :
    ∀ pre post : Str, pat <:+: List.dropWhile p (pre ++ pat ++ post) := by
  intro pre
  induction pre with
  | nil =>
    intro post
    simp only [List.nil_append]
    cases pat with
    | nil => exact absurd rfl hne
    | cons c pt =>
      rw [List.cons_append, List.dropWhile_cons,
        if_neg (by simp [hp c (by simp)])]
      exact ⟨[], post, by simp⟩
  | cons a pre' ih =>
    intro post
    simp only [List.cons_append, List.dropWhile_cons]
    by_cases hpa : p a = true
    · rw [if_pos hpa]
      have := ih post
      simpa [List.append_assoc] using this
    · rw [if_neg hpa]
      exact List.infix_cons (by simp [List.append_assoc])

theorem infix_trim (pat s : Str) (hne : pat ≠ [])
    (hws : ∀ c ∈ pat, isWS c = false) (h : pat <:+: s) : pat <:+: trim s := by
  have hEnd : pat <:+: trimEnd s := by
    have h1 : pat.reverse <:+: s.reverse := List.reverse_infix.mpr h
    obtain ⟨pre, post, heq⟩ := h1
    unfold trimEnd
    have h2 : pat.reverse <:+: List.dropWhile isWS s.reverse := by
      rw [← heq]
      exact infix_dropWhile_of_all isWS pat.reverse (by simp [hne])
        (fun c hc => hws c (List.mem_reverse.mp hc)) pre post
    apply List.reverse_infix.mp
    rw [List.reverse_reverse]
    exact h2
  obtain ⟨pre, post, heq⟩ := hEnd
  unfold trim trimLeft
  rw [← heq]
  exact infix_dropWhile_of_all isWS pat hne hws pre post

theorem hour_of_hours {s : Str} (h : hoursPat <:+: s) : hourPat <:+: s :=
  List.IsInfix.trans ⟨[], ['s'], rfl⟩ h

/-- C5: for every input containing `"Hour"` or `"Hours"`, the Duration
Parser takes the first whitespace-delimited token of the (trimmed) text,
substitutes the vulgar fractions, parses the result as a decimal number
and returns that count multiplied by 3600, with `None` exactly on parse
failure; in particular `"59½ Hours"` parses to `59.5 * 3600` and
`"83 Hours"` to `83 * 3600`. -/
theorem C5_hours_variant :
    (∀ s : Str, (hourPat <:+: s ∨ hoursPat <:+: s) →
      convert_hours_minutes_to_sec_opt s =
        ((splitWS (trim s)).head?).bind fun timeStr =>
          (parseF32 (replaceFracs timeStr)).map fun hours => hours * 3600) ∧
    convert_hours_minutes_to_sec_opt "59½ Hours".data =
      some ((59.5 : ℚ) * 3600) ∧
    convert_hours_minutes_to_sec_opt "83 Hours".data =
      some ((83 : ℚ) * 3600) := by
  refine ⟨fun s hs => ?_, ?_, ?_⟩
  · have hH : hourPat <:+: s := by
      rcases hs with h | h
      · exact h
      · exact hour_of_hours h
    have ht : hourPat <:+: trim s :=
      infix_trim hourPat s (by decide) (by decide) hH
    have hmem : 'H' ∈ trim s := mem_of_substring ht (by decide)
    simp only [convert_hours_minutes_to_sec_opt]
    rw [if_neg ?hdash, if_pos (Or.inr ht)]
    case hdash =>
      rintro (h | h | h) <;> rw [h] at hmem <;> exact absurd hmem (by decide)
    cases hhd : (splitWS (trim s)).head? with
    | none => simp [hhd]
    | some t =>
      cases hpf : parseF32 (replaceFracs t) with
      | none => simp [hhd, hpf]
      | some q => simp [hhd, hpf, qMul_eq]
  · have he : (59.5 : ℚ) * 3600 = 214200 := by norm_num
    rw [he]; decide
  · have he : (83 : ℚ) * 3600 = 298800 := by norm_num
    rw [he]; decide

theorem C5_hours_variant_witness :
    convert_hours_minutes_to_sec_opt "83 Hours".data =
      ((splitWS (trim "83 Hours".data)).head?).bind fun timeStr =>
        (parseF32 (replaceFracs timeStr)).map fun hours => hours * 3600 :=
  C5_hours_variant.1 ("83 Hours".data) (Or.inl (by decide))

theorem C7_last_write_wins_witness :
    ∃ st,
      parse_row ["Co-Op".data, "x".data, "2h".data, "-".data, "-".data,
        "-".data] = some st ∧
      (⟨1, ['T'], none, none, none, none,
        some ⟨some 7200, none, none, none⟩, none⟩ : Game).slot .co_op =
        some st :=
  C7_last_write_wins 1 ['T'] [] []
    [] (["Co-Op".data, "x".data, "1h".data, "-".data, "-".data, "-".data])
    (["Co-Op".data, "x".data, "2h".data, "-".data, "-".data, "-".data])
    .co_op
    ⟨1, ['T'], none, none, none, none, some ⟨some 7200, none, none, none⟩,
      none⟩
    (by decide) (by decide) (by simp) (by decide)

end HLTB
